import Mathlib

/-!
Verification of the M3U8 downloader's core pipeline (src/main.rs).

The program extracts `*.ts` segment names from a playlist document,
optionally filters out names already present on disk (resume mode),
partitions the surviving list into contiguous chunks that are handed to
worker threads, and exits.  The development below is a shallow embedding
of the pure logic of that pipeline:

* strings are modelled as `List Char`; the playlist text is modelled as
  its list of lines (Rust's `str::lines` is the boundary);
* the regex `[a-zA-Z0-9]+\.ts` together with `Regex::find` is modelled
  by `tsMatchAt` (match attempt anchored at one position) and `findTs`
  (leftmost match of a line);
* `slice::chunks` is modelled by `chunksRs`; its panic on chunk size 0
  is modelled by `partitionTs` returning `none`;
* filesystem existence under the output directory is modelled by a
  boolean predicate on segment names;
* the control flow of `M3U8::download` (including each `process::exit(0)`
  call and the final clean return of `main`) is modelled by `download`
  returning a `RunOutcome`, and `exitCode` records the numeric status of
  each normally terminating outcome.
-/

/-- The character class `[a-zA-Z0-9]` of the segment regex.  `Char.isAlpha`
and `Char.isDigit` are exactly the ASCII ranges `A`-`Z`, `a`-`z`, `0`-`9`. -/
def isTsChar (c : Char) : Bool := c.isAlpha || c.isDigit

/-- A match attempt of the regex `[a-zA-Z0-9]+\.ts` anchored at the head of
`s`: the greedy `+` takes the maximal alphanumeric run (backtracking to a
shorter run cannot help, since the run then continues with an alphanumeric
character that cannot match `\.`), which must be nonempty and followed by
the literal characters `.ts`. -/
def tsMatchAt (s : List Char) : Option (List Char) :=
  let run := s.takeWhile isTsChar
  if run.isEmpty then none
  else
    match s.drop run.length with
    | '.' :: 't' :: 's' :: _ => some (run ++ ['.', 't', 's'])
    | _ => none

/-- `Regex::find` for the pattern `[a-zA-Z0-9]+\.ts`: the match anchored at
the leftmost position where one exists, scanning positions left to right. -/
def findTs : List Char → Option (List Char)
  | [] => none
  | c :: rest =>
    match tsMatchAt (c :: rest) with
    | some m => some m
    | none => findTs rest

/-- `M3U8::load_m3u8`, after the file has been read and split into lines:
for each line, if the regex finds a match, push it onto the list. -/
def load_m3u8 (content : List (List Char)) : List (List Char) :=
  content.foldl
    (fun list line =>
      match findTs line with
      | some pos => list ++ [pos]
      | none => list)
    []

/-- The spec's view of extraction: per line, the leftmost token matching
the segment pattern, lines in order, non-matching lines contributing
nothing. -/
def matchedTokens (content : List (List Char)) : List (List Char) :=
  content.filterMap findTs

/-- Rust's `slice::chunks(c)` for `c ≥ 1`: contiguous chunks of `c`
elements, the last chunk carrying the (shorter) remainder.  For an empty
slice there are no chunks.  (Rust panics on `c = 0`; callers model that
panic separately, see `partitionTs`.  The equations below are stated so
that the recursion terminates for every `c`.) -/
def chunksRs (c : Nat) : List α → List (List α)
  | [] => []
  | a :: rest => (a :: rest.take (c - 1)) :: chunksRs c (rest.drop (c - 1))
termination_by l => l.length
decreasing_by
  simp only [List.length_drop, List.length_cons]
  omega

/-- The chunk iterator built by `M3U8::download`:
`list.chunks(list.len() / thread_num)`.  When `list.len() / thread_num`
is `0` (worker count exceeding the list length, or a zero worker count),
Rust's `slice::chunks` panics; that fault is modelled by `none`. -/
def partitionTs (list : List α) (thread_num : Nat) : Option (List (List α)) :=
  let c := list.length / thread_num
  if c = 0 then none else some (chunksRs c list)

/-- `M3U8::check_exist`: a path-existence test for `<output>/<ts>`.  The
filesystem state under the output directory is modelled by the boolean
predicate `disk` on segment names. -/
def check_exist (disk : List Char → Bool) (ts : List Char) : Bool := disk ts

/-- The resume filter of `M3U8::download`:
`list.iter().filter(|ts| !self.check_exist(ts))`. -/
def resumeFilter (disk : List Char → Bool) (list : List (List Char)) :
    List (List Char) :=
  list.filter (fun ts => !check_exist disk ts)

/-- How one run of `M3U8::download` terminates.

* `fileReadFailed` — the playlist could not be read; `load_m3u8` prints a
  diagnostic and calls `process::exit(0)`.
* `invalidPlaylist` — the extracted list is empty; `download` prints
  "m3u8 format is invalid" and calls `process::exit(0)`.
* `earlyDone` — the resume filter left the list empty; `download` prints
  "Done!" and calls `process::exit(0)` before any channel, writer or
  worker is created.
* `panicked` — `list.chunks(0)` panics (worker count exceeds the list
  length); the process aborts abnormally.
* `scheduled cs` — the writer task and one worker per chunk of `cs` are
  spawned, joined, and `main` returns normally (process exit status 0). -/
inductive RunOutcome where
  | fileReadFailed : RunOutcome
  | invalidPlaylist : RunOutcome
  | earlyDone : RunOutcome
  | panicked : RunOutcome
  | scheduled : List (List (List Char)) → RunOutcome
deriving DecidableEq, Repr

/-- The control flow of `M3U8::download` (with the `load_m3u8` read step
inlined): `content?` is the playlist text as lines, or `none` when the
read fails; `disk` is the existence predicate of `check_exist`. -/
def download (content? : Option (List (List Char))) (resume : Bool)
    (disk : List Char → Bool) (thread_num : Nat) : RunOutcome :=
  match content? with
  | none => .fileReadFailed
  | some content =>
    let list := load_m3u8 content
    if list.length = 0 then .invalidPlaylist
    else
      let list := if resume then resumeFilter disk list else list
      if list.length = 0 then .earlyDone
      else
        match partitionTs list thread_num with
        | none => .panicked
        | some chunks => .scheduled chunks

/-- The numeric process exit status of each outcome: every normally
terminating path — the two fatal configuration paths, the early-done
path and the fully successful run — calls `process::exit(0)` or returns
from `main`, hence status `0`; a panic aborts the process abnormally
(`none`). -/
def exitCode : RunOutcome → Option Nat
  | .panicked => none
  | _ => some 0

/-- Modelled from the spec: the header document as the program sees it
after parsing.  The repository's manifest (which fixes the `serde_json`
map representation and hence its iteration order) is not among the
sources; per the spec the object's fields are kept "in the order found
in the source document", so an object carries its field list in document
order.  Only the distinctions `parse_header` inspects are modelled: a
string value versus any other value, and an object versus any other
document. -/
inductive JValue where
  | str : List Char → JValue
  | obj : List (List Char × JValue) → JValue
  | other : JValue

/-- `M3U8::parse_header`: `none` models an empty `--header` argument (no
I/O at all); otherwise the parsed document is scanned and each
string-valued field is pushed as a `(name, value)` pair; a non-object
document contributes nothing. -/
def parse_header (headerDoc : Option JValue) : List (List Char × List Char) :=
  match headerDoc with
  | none => []
  | some v =>
    match v with
    | .obj fields =>
      fields.foldl
        (fun headers kv =>
          match kv.2 with
          | .str s => headers ++ [(kv.1, s)]
          | _ => headers)
        []
    | _ => []

/-- The string-valued entries of a field list, in document order — the
spec's description of the loaded header set. -/
def stringEntries (fields : List (List Char × JValue)) :
    List (List Char × List Char) :=
  fields.filterMap
    (fun kv =>
      match kv.2 with
      | .str s => some (kv.1, s)
      | _ => none)

/-- A small concrete playlist extraction, used to instantiate the
universally quantified theorems below. -/
def sampleSegs : List (List Char) :=
  ["a.ts".toList, "b.ts".toList, "c.ts".toList, "d.ts".toList, "e.ts".toList]

/-- The loop of `load_m3u8` is `filterMap findTs`. -/
theorem load_m3u8_eq_filterMap (content : List (List Char)) :
    load_m3u8 content = matchedTokens content := by
  have h : ∀ (cs : List (List Char)) (acc : List (List Char)),
      cs.foldl
        (fun list line =>
          match findTs line with
          | some pos => list ++ [pos]
          | none => list)
        acc = acc ++ cs.filterMap findTs := by
    intro cs
    induction cs with
    | nil => intro acc; simp
    | cons l rest ih =>
      intro acc
      simp only [List.foldl_cons, List.filterMap_cons]
      cases hf : findTs l with
      | none => simpa using ih acc
      | some m => simp [ih (acc ++ [m])]
  simpa [matchedTokens] using h content []

/-- A playlist with no matching line extracts to the empty list. -/
theorem load_m3u8_eq_nil (content : List (List Char))
    (h : ∀ line ∈ content, findTs line = none) : load_m3u8 content = [] := by
  rw [load_m3u8_eq_filterMap]
  induction content with
  | nil => rfl
  | cons l rest ih =>
    rw [matchedTokens, List.filterMap_cons, h l (List.mem_cons_self _ _)]
    exact ih (fun line hl => h line (List.mem_cons_of_mem _ hl))

/-- A one-line playlist extracts the line's match, if any. -/
theorem load_m3u8_singleton (line : List Char) :
    load_m3u8 [line] = (findTs line).toList := by
  rw [load_m3u8_eq_filterMap, matchedTokens]
  cases h : findTs line <;> simp [List.filterMap_cons, h]

/-- `findTs` returns the match at the leftmost matching position. -/
theorem findTs_leftmost (s m : List Char) (h : findTs s = some m) :
    ∃ i, tsMatchAt (s.drop i) = some m ∧
      ∀ j, j < i → tsMatchAt (s.drop j) = none := by
  induction s with
  | nil => simp [findTs] at h
  | cons c rest ih =>
    rw [findTs] at h
    cases hm : tsMatchAt (c :: rest) with
    | some m' =>
      rw [hm] at h
      refine ⟨0, ?_, ?_⟩
      · simpa [hm] using h
      · intro j hj; omega
    | none =>
      rw [hm] at h
      obtain ⟨i, hi, hlt⟩ := ih h
      refine ⟨i + 1, ?_, ?_⟩
      · simpa using hi
      · intro j hj
        cases j with
        | zero => simpa using hm
        | succ j' => simpa using hlt j' (by omega)

/-- C6: for every header document parsing as a flat object, the loaded
header set is exactly the string-valued entries, as `(name, value)`
pairs, in the order the entries appear in the document; every
non-string-valued entry contributes nothing. -/
theorem c6_header_entries (fields : List (List Char × JValue)) :
    parse_header (some (.obj fields)) = stringEntries fields := by
  show fields.foldl _ [] = _
  have h : ∀ (fs : List (List Char × JValue)) (acc : List (List Char × List Char)),
      fs.foldl
        (fun headers kv =>
          match kv.2 with
          | .str s => headers ++ [(kv.1, s)]
          | _ => headers)
        acc = acc ++ stringEntries fs := by
    intro fs
    induction fs with
    | nil => intro acc; simp [stringEntries]
    | cons kv rest ih =>
      intro acc
      simp only [List.foldl_cons, stringEntries, List.filterMap_cons]
      cases kv.2 with
      | str s => simp [stringEntries] at ih ⊢; rw [ih]; simp
      | obj fs' => simpa [stringEntries] using ih acc
      | other => simpa [stringEntries] using ih acc
  simpa using h fields []

/-- `chunksRs` concatenates back to the original list (for every chunk
size, the degenerate `c = 0` case included, where the equations behave
like `c = 1`). -/
theorem chunksRs_flatten (c : Nat) (l : List α) :
    (chunksRs c l).flatten = l := by
  induction l using chunksRs.induct c with
  | case1 => simp [chunksRs]
  | case2 a rest ih =>
    rw [chunksRs]
    simp only [List.flatten_cons, ih]
    simp [List.take_append_drop]

/-- `chunksRs` yields no chunk exactly for the empty list. -/
theorem chunksRs_eq_nil_iff (c : Nat) (l : List α) :
    chunksRs c l = [] ↔ l = [] := by
  cases l with
  | nil => simp [chunksRs]
  | cons a rest => simp [chunksRs]

/-- Every chunk is nonempty and no longer than the chunk size. -/
theorem chunksRs_length_mem (c : Nat) (hc : 1 ≤ c) (l : List α) :
    ∀ ch ∈ chunksRs c l, 1 ≤ ch.length ∧ ch.length ≤ c := by
  induction l using chunksRs.induct c with
  | case1 => simp [chunksRs]
  | case2 a rest ih =>
    rw [chunksRs]
    intro ch hch
    rcases List.mem_cons.1 hch with h | h
    · subst h
      constructor
      · simp
      · simp only [List.length_cons, List.length_take]
        omega
    · exact ih ch h

/-- Every chunk but the last has length exactly the chunk size. -/
theorem chunksRs_dropLast_length (c : Nat) (hc : 1 ≤ c) (l : List α) :
    ∀ ch ∈ (chunksRs c l).dropLast, ch.length = c := by
  induction l using chunksRs.induct c with
  | case1 => simp [chunksRs]
  | case2 a rest ih =>
    rw [chunksRs]
    intro ch hch
    cases hrest : chunksRs c (rest.drop (c - 1)) with
    | nil => simp [hrest] at hch
    | cons ch1 chs =>
      rw [hrest, List.dropLast_cons₂] at hch
      rcases List.mem_cons.1 hch with h | h
      · subst h
        have hne : rest.drop (c - 1) ≠ [] := by
          intro hnil
          rw [hnil] at hrest
          simp [chunksRs] at hrest
        have : c - 1 < rest.length := by
          by_contra hlt
          exact hne (List.drop_eq_nil_of_le (by omega))
        simp only [List.length_cons, List.length_take]
        omega
      · exact ih ch (by rw [hrest]; exact h)

/-- The number of chunks is the length divided by the chunk size, rounded
up. -/
theorem chunksRs_length (c : Nat) (hc : 1 ≤ c) (l : List α) :
    (chunksRs c l).length = (l.length + c - 1) / c := by
  induction l using chunksRs.induct c with
  | case1 =>
    rw [chunksRs]
    simp only [List.length_nil]
    rw [Nat.div_eq_of_lt (by omega)]
  | case2 a rest ih =>
    rw [chunksRs]
    simp only [List.length_cons, ih, List.length_drop]
    rcases Nat.lt_or_ge rest.length c with h | h
    · have h0 : rest.length - (c - 1) = 0 := by omega
      rw [h0]
      have h1 : (0 + c - 1) / c = 0 := Nat.div_eq_of_lt (by omega)
      have h2 : (rest.length + 1 + c - 1) / c = 1 :=
        Nat.div_eq_of_lt_le (by omega) (by omega)
      omega
    · have h0 : rest.length - (c - 1) + c - 1 = rest.length := by omega
      rw [h0]
      have h2 : rest.length + 1 + c - 1 = rest.length + c := by omega
      rw [h2, Nat.add_div_right _ (by omega)]

/-- With at most as many workers as segments the chunk size is positive
and the partition is produced. -/
theorem partitionTs_eq_some (l : List α) (n : Nat)
    (h1 : 1 ≤ n) (h2 : n ≤ l.length) :
    partitionTs l n = some (chunksRs (l.length / n) l) := by
  have hc : 1 ≤ l.length / n := (Nat.one_le_div_iff (by omega)).2 h2
  simp only [partitionTs]
  rw [if_neg (by omega)]

/-- The run with resume on and every extracted name present on disk. -/
theorem download_all_present (content : List (List Char))
    (disk : List Char → Bool) (n : Nat)
    (h1 : load_m3u8 content ≠ [])
    (h2 : ∀ ts ∈ load_m3u8 content, disk ts = true) :
    download (some content) true disk n = .earlyDone := by
  have hfil : resumeFilter disk (load_m3u8 content) = [] := by
    rw [resumeFilter, List.filter_eq_nil_iff]
    intro ts hts
    simp [check_exist, h2 ts hts]
  simp only [download, if_true]
  rw [if_neg (by simpa [List.length_eq_zero] using h1)]
  simp [hfil]

/-- The run on a playlist with no matching line. -/
theorem download_no_match (content : List (List Char)) (resume : Bool)
    (disk : List Char → Bool) (n : Nat)
    (h : ∀ line ∈ content, findTs line = none) :
    download (some content) resume disk n = .invalidPlaylist := by
  have hl := load_m3u8_eq_nil content h
  simp [download, hl]

/-- C1 (counterexample): with one segment and two workers the scheduler
produces no covering partition at all — the chunk size is `1 / 2 = 0`
and `slice::chunks(0)` panics — so the claim's quantification over every
worker count `N ≥ 1` fails. -/
theorem c1_counterexample :
    ¬ ∃ p : List (List (List Char)),
      partitionTs ["a.ts".toList] 2 = some p ∧
        p.flatten = ["a.ts".toList] := by
  intro ⟨p, hp, _⟩
  simp [partitionTs] at hp

/-- C1 (amended): for a nonempty segment list and a worker count between
1 and the list length, the scheduler's partition is produced and covers
the list exactly: the chunks concatenate back to the filtered list, and
every segment occurs across all chunks, in total, exactly as often as it
occurs in the list. -/
theorem c1_partition_covers (l : List (List Char)) (n : Nat)
    (h1 : 1 ≤ n) (h2 : n ≤ l.length) :
    ∃ p, partitionTs l n = some p ∧ p.flatten = l ∧
      ∀ s, (p.map (fun chunk => chunk.count s)).sum = l.count s := by
  refine ⟨chunksRs (l.length / n) l, partitionTs_eq_some l n h1 h2,
    chunksRs_flatten _ _, ?_⟩
  intro s
  have h := List.count_flatten (l := chunksRs (l.length / n) l) (a := s)
  rw [chunksRs_flatten] at h
  exact h.symm

/-- C1 (witness): three segments over two workers are produced and
covered. -/
theorem c1_witness :
    ∃ p, partitionTs (sampleSegs.take 3) 2 = some p ∧
      p.flatten = sampleSegs.take 3 ∧
      ∀ s, (p.map (fun chunk => chunk.count s)).sum =
        (sampleSegs.take 3).count s :=
  c1_partition_covers (sampleSegs.take 3) 2 (by decide) (by decide)

/-- C2: the degenerate case the spec requires to be fault-free is a fault
in the code: with one extracted segment and two workers, `download`
computes chunk size `1 / 2 = 0` and `list.chunks(0)` panics. -/
theorem c2_degenerate_fault :
    download (some ["a.ts".toList]) false (fun _ => false) 2 =
      RunOutcome.panicked := by
  decide

/-- C3: extraction is order-preserving — for every index `i`, the `i`-th
per-line matching token equals the `i`-th element of the extracted list,
and every token occurs in the extracted list exactly as often as among
the per-line matches (duplicates preserved). -/
theorem c3_extract_order_preserving (content : List (List Char)) :
    (∀ i, (load_m3u8 content).get? i = (matchedTokens content).get? i) ∧
    ∀ tok, (load_m3u8 content).count tok = (matchedTokens content).count tok := by
  rw [load_m3u8_eq_filterMap]
  exact ⟨fun _ => rfl, fun _ => rfl⟩

/-- C4: a playlist with zero matching lines makes the run terminate with
the fatal invalid-playlist outcome, which is distinct from every
scheduled outcome — no worker is scheduled and nothing is fetched. -/
theorem c4_empty_playlist_fatal (content : List (List Char)) (resume : Bool)
    (disk : List Char → Bool) (n : Nat)
    (h : ∀ line ∈ content, findTs line = none) :
    download (some content) resume disk n = RunOutcome.invalidPlaylist ∧
    ∀ cs, RunOutcome.invalidPlaylist ≠ RunOutcome.scheduled cs :=
  ⟨download_no_match content resume disk n h,
   fun _ h2 => RunOutcome.noConfusion h2⟩

/-- C4 (witness): a playlist consisting of one tag line. -/
theorem c4_witness :
    download (some ["#EXTM3U".toList]) false (fun _ => false) 8 =
      RunOutcome.invalidPlaylist ∧
    ∀ cs, RunOutcome.invalidPlaylist ≠ RunOutcome.scheduled cs :=
  c4_empty_playlist_fatal _ _ _ _ (by decide)

/-- C5 (counterexample): five segments over two workers yield three
chunks `[2, 2, 1]`, not exactly `N = 2` chunks — the remainder becomes
an extra, shorter, final chunk rather than being absorbed into the last
of `N` chunks. -/
theorem c5_counterexample :
    ¬ ∃ p : List (List (List Char)),
      partitionTs sampleSegs 2 = some p ∧ p.length = 2 := by
  intro ⟨p, hp, hlen⟩
  have hlen5 : sampleSegs.length = 5 := by decide
  have h2 := partitionTs_eq_some sampleSegs 2 (by omega) (by omega)
  rw [hlen5] at h2
  rw [h2] at hp
  injection hp with hp
  have h3 : (chunksRs (5 / 2) sampleSegs).length = 3 := by
    rw [chunksRs_length _ (by omega), hlen5]
  rw [← hp] at hlen
  omega

/-- C5 (amended): for `1 ≤ N ≤ L` the scheduler partitions the list into
contiguous chunks of size `⌊L / N⌋` each, except the final chunk, which
carries the remainder and is nonempty and no larger; the number of
chunks is `⌈L / ⌊L / N⌋⌉`, which can exceed `N`. -/
theorem c5_partition_shape (l : List (List Char)) (n : Nat)
    (h1 : 1 ≤ n) (h2 : n ≤ l.length) :
    ∃ p, partitionTs l n = some p ∧
      p.flatten = l ∧
      (∀ ch ∈ p.dropLast, ch.length = l.length / n) ∧
      (∀ ch ∈ p, 1 ≤ ch.length ∧ ch.length ≤ l.length / n) ∧
      p.length = (l.length + l.length / n - 1) / (l.length / n) := by
  have hc : 1 ≤ l.length / n := (Nat.one_le_div_iff (by omega)).2 h2
  exact ⟨chunksRs (l.length / n) l, partitionTs_eq_some l n h1 h2,
    chunksRs_flatten _ _, chunksRs_dropLast_length _ hc _,
    chunksRs_length_mem _ hc _, chunksRs_length _ hc _⟩

/-- C5 (witness): the shape of the partition of five segments over two
workers. -/
theorem c5_witness :
    ∃ p, partitionTs sampleSegs 2 = some p ∧
      p.flatten = sampleSegs ∧
      (∀ ch ∈ p.dropLast, ch.length = sampleSegs.length / 2) ∧
      (∀ ch ∈ p, 1 ≤ ch.length ∧ ch.length ≤ sampleSegs.length / 2) ∧
      p.length = (sampleSegs.length + sampleSegs.length / 2 - 1) /
        (sampleSegs.length / 2) :=
  c5_partition_shape sampleSegs 2 (by decide) (by decide)

/-- C7: resume filtering is idempotent, returns a list with all names
absent from disk unchanged, empties a list whose names are all on disk,
and always preserves the relative order of the survivors (the result is
a sublist of the input). -/
theorem c7_resume_filter_idempotent (disk : List Char → Bool)
    (l : List (List Char)) :
    resumeFilter disk (resumeFilter disk l) = resumeFilter disk l ∧
    ((∀ ts ∈ l, disk ts = false) → resumeFilter disk l = l) ∧
    ((∀ ts ∈ l, disk ts = true) → resumeFilter disk l = []) ∧
    (resumeFilter disk l).Sublist l := by
  refine ⟨?_, ?_, ?_, List.filter_sublist _⟩
  · simp [resumeFilter, List.filter_filter]
  · intro h
    rw [resumeFilter, List.filter_eq_self]
    intro ts hts
    simp [check_exist, h ts hts]
  · intro h
    rw [resumeFilter, List.filter_eq_nil_iff]
    intro ts hts
    simp [check_exist, h ts hts]

/-- C7 (witness): a full disk empties the sample list (idempotently), an
empty disk leaves it unchanged. -/
theorem c7_witness :
    resumeFilter (fun _ => true) (resumeFilter (fun _ => true) sampleSegs) =
      resumeFilter (fun _ => true) sampleSegs ∧
    resumeFilter (fun _ => true) sampleSegs = [] ∧
    resumeFilter (fun _ => false) sampleSegs = sampleSegs :=
  ⟨(c7_resume_filter_idempotent (fun _ => true) sampleSegs).1,
   (c7_resume_filter_idempotent (fun _ => true) sampleSegs).2.2.1
     (fun _ _ => rfl),
   (c7_resume_filter_idempotent (fun _ => false) sampleSegs).2.1
     (fun _ _ => rfl)⟩

/-- C8: when resume filtering leaves the list empty, the run terminates
with the early-done outcome, distinct from every scheduled outcome — no
worker, fetch or write happens. -/
theorem c8_early_done (content : List (List Char)) (disk : List Char → Bool)
    (n : Nat) (h1 : load_m3u8 content ≠ [])
    (h2 : ∀ ts ∈ load_m3u8 content, disk ts = true) :
    download (some content) true disk n = RunOutcome.earlyDone ∧
    ∀ cs, RunOutcome.earlyDone ≠ RunOutcome.scheduled cs :=
  ⟨download_all_present content disk n h1 h2,
   fun _ h => RunOutcome.noConfusion h⟩

/-- C8 (witness): one extracted segment already on disk. -/
theorem c8_witness :
    download (some ["a.ts".toList]) true (fun _ => true) 8 =
      RunOutcome.earlyDone ∧
    ∀ cs, RunOutcome.earlyDone ≠ RunOutcome.scheduled cs :=
  c8_early_done _ _ _ (by decide) (fun _ _ => rfl)

/-- C9: each playlist line contributes at most one segment name — the
line's contribution is exactly the match that `findTs` returns, and that
match sits at the leftmost matching position of the line: every earlier
position admits no match. -/
theorem c9_first_match_per_line (line : List Char) :
    (load_m3u8 [line]).length ≤ 1 ∧
    load_m3u8 [line] = (findTs line).toList ∧
    ∀ m, findTs line = some m →
      ∃ i, tsMatchAt (line.drop i) = some m ∧
        ∀ j, j < i → tsMatchAt (line.drop j) = none := by
  refine ⟨?_, load_m3u8_singleton line, fun m hm => findTs_leftmost line m hm⟩
  rw [load_m3u8_singleton]
  cases findTs line <;> simp

/-- C9 (witness): a line holding two matching tokens contributes exactly
its first token. -/
theorem c9_witness :
    (load_m3u8 ["ab.ts cd.ts".toList]).length ≤ 1 ∧
    load_m3u8 ["ab.ts cd.ts".toList] = (findTs "ab.ts cd.ts".toList).toList ∧
    ∃ i, tsMatchAt ("ab.ts cd.ts".toList.drop i) = some "ab.ts".toList ∧
      ∀ j, j < i → tsMatchAt ("ab.ts cd.ts".toList.drop j) = none :=
  ⟨(c9_first_match_per_line "ab.ts cd.ts".toList).1,
   (c9_first_match_per_line "ab.ts cd.ts".toList).2.1,
   (c9_first_match_per_line "ab.ts cd.ts".toList).2.2 "ab.ts".toList
     (by decide)⟩

/-- C10: the unreadable-playlist, invalid-playlist and early-done paths
all terminate with exit status 0 — the very status of a fully successful
run — so the numeric status never distinguishes a fatal configuration
failure from successful completion. -/
theorem c10_exit_status (contA contB : List (List Char)) (resume : Bool)
    (disk : List Char → Bool) (n : Nat) (cs : List (List (List Char))) :
    exitCode (download none resume disk n) = some 0 ∧
    ((∀ line ∈ contA, findTs line = none) →
      exitCode (download (some contA) resume disk n) = some 0) ∧
    ((load_m3u8 contB ≠ [] ∧ ∀ ts ∈ load_m3u8 contB, disk ts = true) →
      exitCode (download (some contB) true disk n) = some 0) ∧
    exitCode (RunOutcome.scheduled cs) = some 0 := by
  refine ⟨rfl, ?_, ?_, rfl⟩
  · intro h
    rw [download_no_match contA resume disk n h]
    rfl
  · intro ⟨h1, h2⟩
    rw [download_all_present contB disk n h1 h2]
    rfl

/-- C10 (witness): a failed read, a tag-only playlist, a fully resumed
playlist and a scheduled run all report status 0. -/
theorem c10_witness :
    exitCode (download none false (fun _ => true) 8) = some 0 ∧
    exitCode (download (some ["#EXTM3U".toList]) false (fun _ => true) 8) =
      some 0 ∧
    exitCode (download (some ["a.ts".toList]) true (fun _ => true) 8) =
      some 0 ∧
    exitCode (RunOutcome.scheduled []) = some 0 :=
  ⟨(c10_exit_status ["#EXTM3U".toList] ["a.ts".toList] false
      (fun _ => true) 8 []).1,
   (c10_exit_status ["#EXTM3U".toList] ["a.ts".toList] false
      (fun _ => true) 8 []).2.1 (by decide),
   (c10_exit_status ["#EXTM3U".toList] ["a.ts".toList] false
      (fun _ => true) 8 []).2.2.1 ⟨by decide, fun _ _ => rfl⟩,
   (c10_exit_status ["#EXTM3U".toList] ["a.ts".toList] false
      (fun _ => true) 8 []).2.2.2⟩
